import Mathlib

/-!
Verification of the opd-ai/gui widget toolkit core: a shallow embedding of
the element tree, event dispatch, window update cycle, and the Label, Input
and Button components, together with theorems about their behaviour.

Conventions of the embedding:
* Go strings manipulated rune-by-rune become `List Char` (one entry per
  Unicode code point); Go `int` becomes `Int`.
* External collaborators are parameters: the NFC normalizer from
  golang.org/x/text is a function `nfc : List Char → List Char`, and a
  font's GlyphAdvance metric is `adv : Char → Option Nat` (a `none` result
  models the `ok = false` return; real font faces report non-negative
  advances, and the code takes `advance.Ceil()`).
* Optional callbacks (onChange, onSubmit, onClick) are modelled by logs in
  the component state: an entry is appended exactly when the Go code
  reaches the corresponding callback invocation point.
-/

namespace GuiSpec

/-- Event kinds, mirroring EventType in the source. -/
inductive EKind where
  | click
  | keyPress
  | textInput
  | focusKind
  | blurKind
  | mouseMove
  | resize
deriving DecidableEq, Repr

/-- Mouse buttons, mirroring MouseButton. -/
inductive MouseBtn where
  | left
  | right
  | middle
deriving DecidableEq, Repr

/-- Keys relevant to Input.handleKeyPress; `other` stands for every key the
switch statement does not mention. -/
inductive KeyM where
  | backspace
  | del
  | arrowLeft
  | arrowRight
  | enter
  | other (code : Nat)
deriving DecidableEq, Repr

/-- The closed set of event variants from the source event model (timestamps
are irrelevant to dispatch and are omitted). -/
inductive EventM where
  | click (x y : Int) (button : MouseBtn)
  | keyPress (key : KeyM)
  | textInput (text : List Char)
  | focusEv
  | blurEv
  | mouseMove (x y : Int)
  | resize (w h : Int)

/-- Event.Type(): the kind of an event. -/
def EventM.kind : EventM → EKind
  | .click .. => .click
  | .keyPress _ => .keyPress
  | .textInput _ => .textInput
  | .focusEv => .focusKind
  | .blurEv => .blurKind
  | .mouseMove .. => .mouseMove
  | .resize .. => .resize

/-- Element.ContainsPoint: x >= e.x && x < e.x+e.width && y >= e.y && y < e.y+e.height. -/
def containsPoint (ex ey w h px py : Int) : Bool :=
  decide (px ≥ ex) && decide (px < ex + w) && decide (py ≥ ey) && decide (py < ey + h)

/-- The data a base Element carries that event dispatch reads: bounds,
visibility, and the per-kind handler chains.  A handler is modelled by the
boolean it returns for a given event. -/
structure ElemData where
  x : Int
  y : Int
  width : Int
  height : Int
  visible : Bool
  handlers : EKind → List (EventM → Bool)

/-- The element tree: a node with its data and its children in insertion
order.  Components in this repository never override HandleEvent (they only
register handlers), so every tree node dispatches with the base algorithm. -/
inductive ElemT where
  | node (d : ElemData) (children : List ElemT)

/-- The handler-chain loop: try handlers in registration order, stopping at
the first that returns true. -/
def runHandlers : List (EventM → Bool) → EventM → Bool
  | [], _ => false
  | hfun :: hs, ev => hfun ev || runHandlers hs ev

mutual

/-- Element.HandleEvent: bounds-filter Click events, then children from the
last-added down, then this node's own handler chain for the event's kind. -/
def handleEvent : ElemT → EventM → Bool
  | .node d children, ev =>
    match ev with
    | .click px py _ =>
      if containsPoint d.x d.y d.width d.height px py then
        handleChildren children ev || runHandlers (d.handlers (EventM.kind ev)) ev
      else
        false
    | _ => handleChildren children ev || runHandlers (d.handlers (EventM.kind ev)) ev

/-- The children loop `for i := len(children)-1; i >= 0; i--`, returning at
the first child that consumes the event. -/
def handleChildren : List ElemT → EventM → Bool
  | [], _ => false
  | c :: cs, ev => handleChildren cs ev || handleEvent c ev

end

theorem runHandlers_eq_any (hs : List (EventM → Bool)) (ev : EventM) :
    runHandlers hs ev = hs.any fun hfun => hfun ev := by
  induction hs with
  | nil => rfl
  | cons hfun hs ih => simp [runHandlers, ih]

theorem handleChildren_eq_any (cs : List ElemT) (ev : EventM) :
    handleChildren cs ev = cs.reverse.any fun c => handleEvent c ev := by
  induction cs with
  | nil => rfl
  | cons c cs ih =>
    simp only [handleChildren, List.reverse_cons, List.any_append, List.any_cons,
      List.any_nil, Bool.or_false, ih]

/-! ## Window update cycle and rendering (gui.go Window.Update, Element.Render) -/

/-- Opaque canvas errors. -/
inductive Err where
  | e1
  | e2
deriving DecidableEq, Repr

/-- A renderable tree node.  `base` is a gui.Element (Render recurses over
the children in insertion order when visible, with no drawing of its own);
`widget` stands for a component whose Render issues canvas draw calls and
returns the given result, identified by `id` in the call log. -/
inductive RenderNode where
  | base (visible : Bool) (children : List RenderNode)
  | widget (id : Nat) (result : Option Err)

mutual

/-- Element.Render / a component Render: the result together with the ids of
the widgets whose draw calls actually ran, in order. -/
def renderTree : RenderNode → Option Err × List Nat
  | .widget id res => (res, [id])
  | .base vis children => if vis then renderList children else (none, [])

/-- The child-render loop: `for _, child := range children { if err := child.Render(canvas); err != nil { return err } }`. -/
def renderList : List RenderNode → Option Err × List Nat
  | [] => (none, [])
  | t :: ts =>
    match renderTree t with
    | (some e, callLog) => (some e, callLog)
    | (none, callLog) =>
      let rest := renderList ts
      (rest.1, callLog ++ rest.2)

end

/-- Canvas calls made by Window.Update, for the call log. -/
inductive UCall where
  | clear
  | widget (id : Nat)
  | present
deriving DecidableEq, Repr

/-- Window.Update: no-op when not running; otherwise Clear (result value
discarded by the source: the call appears in the log but its error is
ignored), then the tree Render (fail-fast), then Present.  Returns the error
the Go method returns, plus the log of canvas calls made. -/
def windowUpdate (running : Bool) (_clearRes presentRes : Option Err)
    (root : RenderNode) : Option Err × List UCall :=
  if !running then (none, [])
  else
    -- the source discards clearRes: `w.canvas.Clear(...)` without an err check
    match renderTree root with
    | (some e, callLog) => (some e, UCall.clear :: callLog.map UCall.widget)
    | (none, callLog) =>
      (presentRes, UCall.clear :: (callLog.map UCall.widget ++ [UCall.present]))

/-! ## Text utilities (label.go: strings.Fields, measureTextWidth, wrapText) -/

/-- unicode.IsSpace: the Unicode White_Space property. -/
def goIsSpace (c : Char) : Bool :=
  let n := c.toNat
  (0x9 ≤ n && n ≤ 0xD) || n == 0x20 || n == 0x85 || n == 0xA0 || n == 0x1680 ||
  (0x2000 ≤ n && n ≤ 0x200A) || n == 0x2028 || n == 0x2029 || n == 0x202F ||
  n == 0x205F || n == 0x3000

/-- strings.Fields helper: split around runs of white space, accumulating the
current word reversed. -/
def fieldsAux : List Char → List Char → List (List Char)
  | [], acc => if acc = [] then [] else [acc.reverse]
  | c :: rest, acc =>
    if goIsSpace c then
      if acc = [] then fieldsAux rest [] else acc.reverse :: fieldsAux rest []
    else
      fieldsAux rest (c :: acc)

/-- strings.Fields: the whitespace-delimited words of a string. -/
def fields (s : List Char) : List (List Char) := fieldsAux s []

/-- measureTextWidth: sum the ceiling of GlyphAdvance over the runes that the
font covers (the `ok = false` runes contribute nothing). -/
def measureTextWidth (adv : Char → Option Nat) (text : List Char) : Nat :=
  text.foldl (fun w c => match adv c with | some a => w + a | none => w) 0

/-- One iteration of the wrapText loop over a word.  State: lines flushed so
far, and the current line being filled. -/
def wrapStep (adv : Char → Option Nat) (maxWidth : Int)
    (st : List (List Char) × List Char) (word : List Char) :
    List (List Char) × List Char :=
  let testLine := if st.2 = [] then word else st.2 ++ ' ' :: word
  if (measureTextWidth adv testLine : Int) ≤ maxWidth then
    (st.1, testLine)
  else if st.2 = [] then
    (st.1, word)
  else
    (st.1 ++ [st.2], word)

/-- Label.wrapText: greedy line fill of the whitespace-delimited words. -/
def wrapText (adv : Char → Option Nat) (text : List Char) (maxWidth : Int) :
    List (List Char) :=
  if maxWidth ≤ 0 then [text]
  else
    let words := fields text
    if words = [] then [[]]
    else
      let st := words.foldl (wrapStep adv maxWidth) ([], [])
      if st.2 = [] then st.1 else st.1 ++ [st.2]

/-! ## Label (label.go) -/

/-- The slice of a font.Face that Label layout consumes: per-rune advance and
the line height `(metrics.Ascent + metrics.Descent).Ceil()`. -/
structure FontM where
  adv : Char → Option Nat
  lineHeight : Nat

/-- The default font basicfont.Face7x13: advance 7 per covered rune, ascent
11 and descent 2, so line height 13. -/
def face7x13M : FontM := { adv := fun _ => some 7, lineHeight := 13 }

/-- Text alignment options. -/
inductive AlignM where
  | left
  | center
  | right
deriving DecidableEq, Repr

/-- Label state: the embedded Element's geometry and visibility plus the
Label's own fields.  `font = none` models a nil font.Face. -/
structure LabelState where
  x : Int
  y : Int
  width : Int
  height : Int
  visible : Bool
  text : List Char
  font : Option FontM
  color : Nat
  alignment : AlignM
  wordWrap : Bool
  autoSize : Bool

/-- Element.SetSize promoted to the Label. -/
def setSizeL (w h : Int) (l : LabelState) : LabelState :=
  { l with width := w, height := h }

/-- Label.updateSize: collapse to (0,0) without font or text; single-line
measure when word wrap is off; otherwise wrap at the current width (default
200 when the width is not positive) and take the widest line and
lines × lineHeight. -/
def updateSizeL (l : LabelState) : LabelState :=
  match l.font with
  | none => setSizeL 0 0 l
  | some f =>
    if l.text = [] then setSizeL 0 0 l
    else if !l.wordWrap then
      setSizeL (measureTextWidth f.adv l.text) (f.lineHeight : Int) l
    else
      let w := if l.width ≤ 0 then 200 else l.width
      let lines := wrapText f.adv l.text w
      let maxW := lines.foldl
        (fun m line =>
          let lw := measureTextWidth f.adv line
          if (lw : Int) > m then (lw : Int) else m) 0
      setSizeL maxW ((lines.length * f.lineHeight : Nat) : Int) l

/-- NewLabel: normalized text, default geometry (0,0,100,20), default font,
left alignment, wrap off, auto-size on (so the constructor recomputes the
size). -/
def newLabel (nfc : List Char → List Char) (t : List Char) : LabelState :=
  let l : LabelState :=
    { x := 0, y := 0, width := 100, height := 20, visible := true,
      text := nfc t, font := some face7x13M, color := 0,
      alignment := .left, wordWrap := false, autoSize := true }
  if l.autoSize then updateSizeL l else l

/-- Label.SetText. -/
def setTextL (nfc : List Char → List Char) (t : List Char) (l : LabelState) :
    LabelState :=
  let l := { l with text := nfc t }
  if l.autoSize then updateSizeL l else l

/-- Label.SetFont. -/
def setFontL (f : FontM) (l : LabelState) : LabelState :=
  let l := { l with font := some f }
  if l.autoSize then updateSizeL l else l

/-- Label.SetColor: only the color changes. -/
def setColorL (c : Nat) (l : LabelState) : LabelState :=
  { l with color := c }

/-- Label.SetAlignment: only the alignment changes. -/
def setAlignmentL (a : AlignM) (l : LabelState) : LabelState :=
  { l with alignment := a }

/-- Label.SetWordWrap: only the flag changes (the source does not call
updateSize here). -/
def setWordWrapL (b : Bool) (l : LabelState) : LabelState :=
  { l with wordWrap := b }

/-- Label.SetAutoSize: sets the flag and recomputes the size when enabling. -/
def setAutoSizeL (b : Bool) (l : LabelState) : LabelState :=
  let l := { l with autoSize := b }
  if b then updateSizeL l else l

/-! ## Input (components/input.go) -/

/-- Input state: the embedded Element's geometry plus the Input's own fields.
`changeLog`/`submitLog` record the texts passed to the onChange/onSubmit
callback invocation points (most recent first). -/
structure InputState where
  x : Int
  y : Int
  width : Int
  height : Int
  text : List Char
  cursorPos : Int
  selectionStart : Int
  selectionEnd : Int
  focused : Bool
  maxLength : Int
  validator : Option (List Char → Bool)
  changeLog : List (List Char)
  submitLog : List (List Char)

/-- NewInput: empty text, bounds (0,0,150,25), no selection, unfocused, no
length limit, no validator. -/
def initialInput : InputState :=
  { x := 0, y := 0, width := 150, height := 25, text := [], cursorPos := 0,
    selectionStart := -1, selectionEnd := -1, focused := false,
    maxLength := -1, validator := none, changeLog := [], submitLog := [] }

/-- Input.hasSelection: both bounds non-negative and unequal. -/
def hasSelection (s : InputState) : Bool :=
  decide (s.selectionStart ≥ 0) && decide (s.selectionEnd ≥ 0) &&
    decide (s.selectionStart ≠ s.selectionEnd)

/-- Input.clearSelection. -/
def clearSelection (s : InputState) : InputState :=
  { s with selectionStart := -1, selectionEnd := -1 }

/-- Input.deleteSelection: normalize start ≤ end, remove the range, collapse
the cursor to the start, clear the selection. -/
def deleteSelection (s : InputState) : InputState :=
  if hasSelection s then
    let start := min s.selectionStart s.selectionEnd
    let stop := max s.selectionStart s.selectionEnd
    clearSelection
      { s with
        text := s.text.take start.toNat ++ s.text.drop stop.toNat,
        cursorPos := start }
  else s

/-- The guard `i.validator != nil && !i.validator(candidate)`. -/
def validatorRejects (s : InputState) (candidate : List Char) : Bool :=
  match s.validator with
  | some v => !(v candidate)
  | none => false

/-- The incoming runes Input.insertText actually splices in: the normalized
input `l`, truncated against maxLength when the combined length would exceed
it. -/
def insertedRunes (s : InputState) (l : List Char) : List Char :=
  if s.maxLength > 0 ∧ ((s.text.length + l.length : Nat) : Int) > s.maxLength then
    l.take (s.maxLength - (s.text.length : Int)).toNat
  else l

/-- The prospective full text insertText builds and offers to the validator. -/
def prospectiveText (s : InputState) (l : List Char) : List Char :=
  s.text.take s.cursorPos.toNat ++ insertedRunes s l ++
    s.text.drop s.cursorPos.toNat

/-- The tail of Input.insertText, after any selection has been removed:
truncate the incoming runes against maxLength (abandoning the insertion when
no room remains), validate the prospective text, then splice, advance the
cursor by the number of inserted code points and fire onChange. -/
def insertAtCursor (s : InputState) (normalized : List Char) : InputState :=
  if s.maxLength > 0 ∧ ((s.text.length + normalized.length : Nat) : Int) > s.maxLength then
    if s.maxLength - (s.text.length : Int) ≤ 0 then s
    else
      let newRunes := normalized.take (s.maxLength - (s.text.length : Int)).toNat
      let newText := s.text.take s.cursorPos.toNat ++ newRunes ++
        s.text.drop s.cursorPos.toNat
      if validatorRejects s newText then s
      else
        { s with
          text := newText, cursorPos := s.cursorPos + newRunes.length,
          changeLog := newText :: s.changeLog }
  else
    let newText := s.text.take s.cursorPos.toNat ++ normalized ++
      s.text.drop s.cursorPos.toNat
    if validatorRejects s newText then s
    else
      { s with
        text := newText, cursorPos := s.cursorPos + normalized.length,
        changeLog := newText :: s.changeLog }

/-- Input.insertText: normalize the incoming text, delete any pending
selection first, then insert at the (possibly collapsed) cursor. -/
def insertText (nfc : List Char → List Char) (t : List Char)
    (s : InputState) : InputState :=
  insertAtCursor (if hasSelection s then deleteSelection s else s) (nfc t)

/-- The maxLength truncation in Input.SetText: keep the first `limit` code
points when the limit is positive and exceeded. -/
def truncatedTo (limit : Int) (l : List Char) : List Char :=
  if limit > 0 ∧ ((l.length : Nat) : Int) > limit then l.take limit.toNat else l

/-- Input.SetText: normalize, truncate to maxLength by code point, reject via
the validator (no-op), else store, move the cursor to the end, clear the
selection and fire onChange. -/
def setTextI (nfc : List Char → List Char) (t : List Char)
    (s : InputState) : InputState :=
  let normalized := truncatedTo s.maxLength (nfc t)
  if validatorRejects s normalized then s
  else
    clearSelection
      { s with
        text := normalized, cursorPos := (normalized.length : Int),
        changeLog := normalized :: s.changeLog }

/-- Input.GetText. -/
def getText (s : InputState) : List Char := s.text

/-- Input.SetMaxLength: store the limit and truncate the existing text,
clamping the cursor, when it now exceeds the limit. -/
def setMaxLengthI (n : Int) (s : InputState) : InputState :=
  let s := { s with maxLength := n }
  if n > 0 ∧ ((s.text.length : Nat) : Int) > n then
    { s with
      text := s.text.take n.toNat,
      cursorPos := if s.cursorPos > n then n else s.cursorPos }
  else s

/-- Input.Focus. -/
def focusI (s : InputState) : InputState := { s with focused := true }

/-- Input.Blur: drop focus and clear the selection. -/
def blurI (s : InputState) : InputState :=
  clearSelection { s with focused := false }

/-- getCharWidth: the font's advance, defaulting to 7 when the glyph is not
covered. -/
def getCharWidth (adv : Char → Option Nat) (r : Char) : Nat :=
  (adv r).getD 7

/-- The cursor-from-click loop in Input.handleClick: walk the runes
accumulating advances; stop at the rune whose midpoint passes the offset.
`cur` is the cursor value entering the loop (returned unchanged when the
text is empty). -/
def clickCursorLoop (adv : Char → Option Nat) (relativeX : Int) :
    List Char → Nat → Nat → Int → Int
  | [], _, _, cur => cur
  | r :: rest, pos, w, _ =>
    let cw := getCharWidth adv r
    if ((w + cw / 2 : Nat) : Int) > relativeX then (pos : Int)
    else clickCursorLoop adv relativeX rest (pos + 1) (w + cw) ((pos : Int) + 1)

/-- Input.handleClick: outside the bounds, blur when focused and report the
event unconsumed; inside, focus, map the horizontal offset (minus the fixed
5-pixel padding) to a cursor position, clear the selection, consume. -/
def handleClickI (adv : Char → Option Nat) (px py : Int)
    (s : InputState) : InputState × Bool :=
  if !containsPoint s.x s.y s.width s.height px py then
    (if s.focused then blurI s else s, false)
  else
    let s := if !s.focused then focusI s else s
    let relativeX := px - s.x - 5
    let s :=
      if relativeX ≤ 0 then { s with cursorPos := 0 }
      else { s with cursorPos := clickCursorLoop adv relativeX s.text 0 0 s.cursorPos }
    (clearSelection s, true)

/-- Input.handleKeyPress: only when focused; Backspace/Delete edit (firing
onChange even when nothing was deleted), arrows move the cursor clamped to
[0, length] and clear the selection, Enter fires onSubmit; other keys are
unconsumed. -/
def handleKeyPressI (k : KeyM) (s : InputState) : InputState × Bool :=
  if !s.focused then (s, false)
  else
    match k with
    | .backspace =>
      let s :=
        if hasSelection s then deleteSelection s
        else if s.cursorPos > 0 then
          { s with
            text := s.text.take (s.cursorPos - 1).toNat ++ s.text.drop s.cursorPos.toNat,
            cursorPos := s.cursorPos - 1 }
        else s
      ({ s with changeLog := s.text :: s.changeLog }, true)
    | .del =>
      let s :=
        if hasSelection s then deleteSelection s
        else if s.cursorPos < (s.text.length : Int) then
          { s with
            text := s.text.take s.cursorPos.toNat ++ s.text.drop (s.cursorPos + 1).toNat }
        else s
      ({ s with changeLog := s.text :: s.changeLog }, true)
    | .arrowLeft =>
      let s := if s.cursorPos > 0 then { s with cursorPos := s.cursorPos - 1 } else s
      (clearSelection s, true)
    | .arrowRight =>
      let s :=
        if s.cursorPos < (s.text.length : Int) then { s with cursorPos := s.cursorPos + 1 }
        else s
      (clearSelection s, true)
    | .enter => ({ s with submitLog := s.text :: s.submitLog }, true)
    | .other _ => (s, false)

/-- unicode.IsControl: the Cc category. -/
def goIsControl (c : Char) : Bool :=
  c.toNat < 0x20 || (0x7F ≤ c.toNat && c.toNat ≤ 0x9F)

/-- Input.handleTextInput: only when focused; strip control characters other
than tab, insert what remains when non-empty, and always consume. -/
def handleTextInputI (nfc : List Char → List Char) (t : List Char)
    (s : InputState) : InputState × Bool :=
  if !s.focused then (s, false)
  else
    let filtered := t.filter fun c => !(goIsControl c && !(c == '\t'))
    (if filtered = [] then s else insertText nfc filtered s, true)

/-- The operations of the Input's public interface: the exported setters,
Focus/Blur, and the five registered event handlers (Click, KeyPress,
TextInput, Focus, Blur events). -/
inductive InOp where
  | setText (t : List Char)
  | setMaxLength (n : Int)
  | setValidator (v : Option (List Char → Bool))
  | setPosition (nx ny : Int)
  | setSize (nw nh : Int)
  | focusOp
  | blurOp
  | clickEv (px py : Int)
  | keyEv (k : KeyM)
  | textEv (t : List Char)

/-- One public operation applied to the Input state. -/
def stepOp (nfc : List Char → List Char) (adv : Char → Option Nat)
    (s : InputState) : InOp → InputState
  | .setText t => setTextI nfc t s
  | .setMaxLength n => setMaxLengthI n s
  | .setValidator v => { s with validator := v }
  | .setPosition nx ny => { s with x := nx, y := ny }
  | .setSize nw nh => { s with width := nw, height := nh }
  | .focusOp => focusI s
  | .blurOp => blurI s
  | .clickEv px py => (handleClickI adv px py s).1
  | .keyEv k => (handleKeyPressI k s).1
  | .textEv t => (handleTextInputI nfc t s).1

/-- Every state reachable from the constructor through the public interface. -/
def runOps (nfc : List Char → List Char) (adv : Char → Option Nat)
    (ops : List InOp) : InputState :=
  ops.foldl (stepOp nfc adv) initialInput

/-! ## Button (components/button.go) -/

/-- ButtonState visual states. -/
inductive BState where
  | normal
  | hover
  | pressed
  | disabled
deriving DecidableEq, Repr

/-- Button state: the embedded Element's geometry plus the enabled flag and
visual state.  `clickLog` counts onClick invocations and `hoverLog`/
`unhoverLog` the onHover/onUnhover ones. -/
structure ButtonState where
  x : Int
  y : Int
  width : Int
  height : Int
  visible : Bool
  enabled : Bool
  state : BState
  clickLog : Nat
  hoverLog : Nat
  unhoverLog : Nat

/-- NewButton: bounds (0,0,100,30), enabled, Normal state. -/
def newButton : ButtonState :=
  { x := 0, y := 0, width := 100, height := 30, visible := true,
    enabled := true, state := .normal, clickLog := 0, hoverLog := 0,
    unhoverLog := 0 }

/-- Button.SetEnabled: disabling forces Disabled; enabling restores Normal
only from Disabled. -/
def buttonSetEnabled (en : Bool) (b : ButtonState) : ButtonState :=
  let b := { b with enabled := en }
  if !en then { b with state := .disabled }
  else if b.state = .disabled then { b with state := .normal }
  else b

/-- Button.handleClick: unconsumed while disabled or outside the bounds;
otherwise Pressed, onClick, back to Normal, consumed. -/
def buttonHandleClick (px py : Int) (b : ButtonState) : ButtonState × Bool :=
  if !b.enabled then (b, false)
  else if !containsPoint b.x b.y b.width b.height px py then (b, false)
  else
    let b := { b with state := .pressed }
    let b := { b with clickLog := b.clickLog + 1 }
    ({ b with state := .normal }, true)

/-- Button.handleMouseMove: hover tracking from geometry, ignored while
disabled. -/
def buttonHandleMouseMove (px py : Int) (b : ButtonState) : ButtonState × Bool :=
  if !b.enabled then (b, false)
  else
    let wasHover := b.state = .hover
    let isHover := containsPoint b.x b.y b.width b.height px py
    if isHover && !wasHover then
      ({ b with state := .hover, hoverLog := b.hoverLog + 1 }, true)
    else if !isHover && wasHover then
      ({ b with state := .normal, unhoverLog := b.unhoverLog + 1 }, true)
    else (b, false)

/-! ## Theorems -/

/-- Claim C2: ContainsPoint(px, py) is true iff px lies in the half-open
interval [x, x+width) and py in [y, y+height); points on the right or bottom
edge are excluded, left and top edges included. -/
theorem containsPoint_halfOpen (ex ey w h px py : Int) :
    containsPoint ex ey w h px py = true ↔
      (ex ≤ px ∧ px < ex + w ∧ ey ≤ py ∧ py < ey + h) := by
  simp only [containsPoint, Bool.and_eq_true, decide_eq_true_eq, ge_iff_le, and_assoc]

/-- Claim C1: HandleEvent bounds-filters only Click events (returning false
for a Click outside the bounds without consulting children or handlers),
then offers the event to the children in reverse insertion order with the
first consumer winning, then to this node's handler chain for the event's
kind in registration order, and returns false when nothing consumed it. -/
theorem handleEvent_dispatch (d : ElemData) (children : List ElemT) (ev : EventM) :
    handleEvent (.node d children) ev =
      match ev with
      | .click px py _ =>
        if containsPoint d.x d.y d.width d.height px py then
          (children.reverse.any fun c => handleEvent c ev) ||
            (d.handlers (EventM.kind ev)).any fun hfun => hfun ev
        else false
      | _ =>
        (children.reverse.any fun c => handleEvent c ev) ||
          (d.handlers (EventM.kind ev)).any fun hfun => hfun ev := by
  cases ev <;>
    simp only [handleEvent, handleChildren_eq_any, runHandlers_eq_any]

/-- Claim C9: a click while disabled is unconsumed and never fires onClick;
SetEnabled(false) forces Disabled; SetEnabled(true) restores Normal exactly
from Disabled, leaving any other state untouched; a click within bounds
while enabled fires onClick once and leaves the state Normal. -/
theorem button_enabled_click_behaviour (b : ButtonState) (px py : Int) :
    (b.enabled = false → buttonHandleClick px py b = (b, false)) ∧
    (buttonSetEnabled false b).state = .disabled ∧
    (b.state = .disabled → (buttonSetEnabled true b).state = .normal) ∧
    (b.state ≠ .disabled → (buttonSetEnabled true b).state = b.state) ∧
    (b.enabled = true → containsPoint b.x b.y b.width b.height px py = true →
      buttonHandleClick px py b =
        ({ b with state := .normal, clickLog := b.clickLog + 1 }, true)) := by
  refine ⟨fun hd => ?_, ?_, fun hd => ?_, fun hd => ?_, fun he hc => ?_⟩
  · simp [buttonHandleClick, hd]
  · simp [buttonSetEnabled]
  · simp [buttonSetEnabled, hd]
  · simp [buttonSetEnabled, hd]
  · simp [buttonHandleClick, he, hc]

/-- Witness for C9: on a fresh button (enabled, Normal) a click at (10, 10)
inside the default 100×30 bounds fires onClick and ends Normal, and after
SetEnabled(false) the same click is unconsumed with no onClick. -/
theorem button_enabled_click_behaviour_witness :
    buttonHandleClick 10 10 newButton =
      ({ newButton with state := .normal, clickLog := newButton.clickLog + 1 }, true) ∧
    (buttonSetEnabled false newButton).state = .disabled ∧
    buttonHandleClick 10 10 (buttonSetEnabled false newButton) =
      (buttonSetEnabled false newButton, false) := by
  refine ⟨(button_enabled_click_behaviour newButton 10 10).2.2.2.2 rfl (by decide),
    (button_enabled_click_behaviour newButton 10 10).2.1,
    (button_enabled_click_behaviour (buttonSetEnabled false newButton) 10 10).1 rfl⟩

/-- Counterexample to claim C7 as stated: with the window running, a failing
Clear (clearRes = some e1) does not abort the update pass — the render and
Present still run and Update returns nil, not the Clear error. -/
theorem window_update_clear_error_ignored :
    windowUpdate true (some Err.e1) none (.base true []) =
      (none, [UCall.clear, UCall.present]) ∧
    (none : Option Err) ≠ some Err.e1 := by
  constructor
  · rfl
  · simp

/-- Claim C7 (amended): Update is a no-op returning nil when not running;
the Clear error is discarded (see the counterexample); a failure inside the
tree Render aborts the pass immediately — later siblings are not rendered
and Present is not called — and its error is returned; Present's result is
returned only after a successful render. -/
theorem window_update_error_propagation :
    (∀ c p root, windowUpdate false c p root = (none, [])) ∧
    (∀ c p root e callLog, renderTree root = (some e, callLog) →
      windowUpdate true c p root =
        (some e, UCall.clear :: callLog.map UCall.widget)) ∧
    (∀ c p root callLog, renderTree root = (none, callLog) →
      windowUpdate true c p root =
        (p, UCall.clear :: (callLog.map UCall.widget ++ [UCall.present]))) ∧
    (∀ ts t ts2 e callLog, (∀ u ∈ ts, (renderTree u).1 = none) →
      renderTree t = (some e, callLog) →
      renderList (ts ++ t :: ts2) =
        (some e, (ts.map fun u => (renderTree u).2).flatten ++ callLog)) := by
  refine ⟨fun c p root => rfl, fun c p root e callLog h => ?_,
    fun c p root callLog h => ?_, fun ts t ts2 e callLog hts ht => ?_⟩
  · simp [windowUpdate, h]
  · simp [windowUpdate, h]
  · induction ts with
    | nil => simp [renderList, ht]
    | cons u us ih =>
      have h1 := hts u (List.mem_cons_self u us)
      have ihr := ih fun v hv => hts v (List.mem_cons_of_mem u hv)
      rcases hru : renderTree u with ⟨ru, lu⟩
      rw [hru] at h1
      simp only at h1
      subst h1
      simp only [List.cons_append, renderList, hru, List.append_eq, ihr,
        List.map_cons, List.flatten_cons, List.append_assoc]

/-- Witness for C7: a tree whose second widget fails renders widgets 1 and 2
only, skips widget 3 and Present, and Update returns the widget error. -/
theorem window_update_error_propagation_witness :
    windowUpdate true none none
        (.base true [.widget 1 none, .widget 2 (some Err.e1), .widget 3 none]) =
      (some Err.e1, UCall.clear :: [1, 2].map UCall.widget) := by
  exact window_update_error_propagation.2.1 none none
    (.base true [.widget 1 none, .widget 2 (some Err.e1), .widget 3 none])
    Err.e1 [1, 2] rfl

/-- A produced line is acceptable when its measured width stays within the
limit or it is verbatim one of the source words. -/
def wrapLineOK (adv : Char → Option Nat) (maxWidth : Int)
    (ws0 : List (List Char)) (l : List Char) : Prop :=
  (measureTextWidth adv l : Int) ≤ maxWidth ∨ l ∈ ws0

theorem wrapFold_inv (adv : Char → Option Nat) (maxWidth : Int)
    (ws0 ws : List (List Char)) :
    ∀ lines cur,
      (∀ w ∈ ws, w ∈ ws0) →
      (∀ l ∈ lines, wrapLineOK adv maxWidth ws0 l) →
      (cur = [] ∨ wrapLineOK adv maxWidth ws0 cur) →
      (∀ l ∈ (ws.foldl (wrapStep adv maxWidth) (lines, cur)).1,
        wrapLineOK adv maxWidth ws0 l) ∧
      ((ws.foldl (wrapStep adv maxWidth) (lines, cur)).2 = [] ∨
        wrapLineOK adv maxWidth ws0
          (ws.foldl (wrapStep adv maxWidth) (lines, cur)).2) := by
  induction ws with
  | nil => exact fun lines cur _ hlines hcur => ⟨hlines, hcur⟩
  | cons w ws ih =>
    intro lines cur hws hlines hcur
    rw [List.foldl_cons]
    have hw0 : w ∈ ws0 := hws w (List.mem_cons_self w ws)
    have hrest : ∀ v ∈ ws, v ∈ ws0 := fun v hv => hws v (List.mem_cons_of_mem w hv)
    by_cases h1 : (measureTextWidth adv (if cur = [] then w else cur ++ ' ' :: w) : Int) ≤ maxWidth
    · -- the word fits: the current line becomes the test line
      have hstep : wrapStep adv maxWidth (lines, cur) w =
          (lines, if cur = [] then w else cur ++ ' ' :: w) := by
        unfold wrapStep
        dsimp only
        rw [if_pos h1]
      rw [hstep]
      exact ih lines _ hrest hlines (Or.inr (Or.inl h1))
    · by_cases h2 : cur = []
      · -- current line empty: start it with the word
        have hstep : wrapStep adv maxWidth (lines, cur) w = (lines, w) := by
          unfold wrapStep
          dsimp only
          rw [if_neg h1, if_pos h2]
        rw [hstep]
        exact ih lines w hrest hlines (Or.inr (Or.inr hw0))
      · -- flush the current line, start a new one with the word
        have hstep : wrapStep adv maxWidth (lines, cur) w = (lines ++ [cur], w) := by
          unfold wrapStep
          dsimp only
          rw [if_neg h1, if_neg h2]
        rw [hstep]
        refine ih (lines ++ [cur]) w hrest ?_ (Or.inr (Or.inr hw0))
        intro l hl
        rcases List.mem_append.1 hl with h | h
        · exact hlines l h
        · rcases List.mem_singleton.1 h with rfl
          exact hcur.resolve_left h2

/-- Claim C6: every line the word-wrap produces has measured width within
the limit, except a line that is verbatim a single source word whose own
width exceeds the limit (the oversized word stands alone, never split). -/
theorem wrapText_width_bound (adv : Char → Option Nat) (text : List Char)
    (limit : Int) (hp : 1 ≤ limit) :
    ∀ line ∈ wrapText adv text limit,
      (measureTextWidth adv line : Int) ≤ limit ∨
      (line ∈ fields text ∧ limit < (measureTextWidth adv line : Int)) := by
  intro line hline
  have hnot : ¬ limit ≤ 0 := by omega
  unfold wrapText at hline
  rw [if_neg hnot] at hline
  by_cases hw : fields text = []
  · rw [if_pos hw] at hline
    simp only [List.mem_singleton] at hline
    subst hline
    left
    simp only [measureTextWidth, List.foldl_nil, Nat.cast_zero]
    omega
  · rw [if_neg hw] at hline
    obtain ⟨h1, h2⟩ := wrapFold_inv adv limit (fields text) (fields text) [] []
      (fun v hv => hv) (by simp) (Or.inl rfl)
    have hok : wrapLineOK adv limit (fields text) line := by
      dsimp only at hline
      split at hline
      · exact h1 line hline
      · rcases List.mem_append.1 hline with h | h
        · exact h1 line h
        · rcases List.mem_singleton.1 h with rfl
          rcases h2 with hnil | hok
          · exact absurd hnil (by assumption)
          · exact hok
    rcases hok with hle | hmem
    · exact Or.inl hle
    · by_cases hle : (measureTextWidth adv line : Int) ≤ limit
      · exact Or.inl hle
      · exact Or.inr ⟨hmem, by omega⟩

/-- Witness for C6 at limit 10 with a 7-per-glyph font on the text "ab cd":
both words measure 14 > 10, so each sits alone on an over-wide line. -/
theorem wrapText_width_bound_witness :
    (1 : Int) ≤ 10 ∧
    ∀ line ∈ wrapText (fun _ => some 7) "ab cd".toList 10,
      (measureTextWidth (fun _ => some 7) line : Int) ≤ 10 ∨
      (line ∈ fields "ab cd".toList ∧
        10 < (measureTextWidth (fun _ => some 7) line : Int)) :=
  ⟨by decide, wrapText_width_bound (fun _ => some 7) "ab cd".toList 10 (by decide)⟩

/-- A label whose size recomputation matters for the word-wrap flag: text
"aaaa bb" under the default 7-per-glyph font. -/
def c8Label0 : LabelState := newLabel id "aaaa bb".toList

/-- The host then sets an explicit 20×13 size to wrap into. -/
def c8Label1 : LabelState := setSizeL 20 13 c8Label0

/-- ... and enables word wrap. -/
def c8Label2 : LabelState := setWordWrapL true c8Label1

/-- Counterexample to claim C8 as stated: with auto-size enabled,
SetWordWrap(true) leaves the size at (20, 13) although a size recomputation
would produce (28, 26) — the source's SetWordWrap only sets the flag and
never calls updateSize. -/
theorem label_setWordWrap_no_recompute :
    c8Label2.autoSize = true ∧
    (c8Label2.width, c8Label2.height) = (20, 13) ∧
    ((updateSizeL c8Label2).width, (updateSizeL c8Label2).height) = (28, 26) ∧
    ((20 : Int), (13 : Int)) ≠ ((28 : Int), (26 : Int)) := by
  refine ⟨rfl, rfl, ?_, by decide⟩
  rfl

/-- Claim C8 (amended): with auto-size enabled, SetText, SetFont and
SetAutoSize(true) each recompute the size; SetWordWrap only stores the flag
and does not recompute (see the counterexample); SetColor and SetAlignment
leave the size unchanged; the recomputation collapses the size to (0,0)
when the text is empty or no font is set. -/
theorem label_setters_size (nfc : List Char → List Char) (l : LabelState)
    (t : List Char) (f : FontM) (c : Nat) (a : AlignM) (b : Bool) :
    (l.autoSize = true → setTextL nfc t l = updateSizeL { l with text := nfc t }) ∧
    (l.autoSize = true → setFontL f l = updateSizeL { l with font := some f }) ∧
    setAutoSizeL true l = updateSizeL { l with autoSize := true } ∧
    setWordWrapL b l = { l with wordWrap := b } ∧
    (setColorL c l).width = l.width ∧ (setColorL c l).height = l.height ∧
    (setAlignmentL a l).width = l.width ∧ (setAlignmentL a l).height = l.height ∧
    ((l.text = [] ∨ l.font = none) →
      (updateSizeL l).width = 0 ∧ (updateSizeL l).height = 0) := by
  refine ⟨fun h => ?_, fun h => ?_, ?_, rfl, rfl, rfl, rfl, rfl, fun h => ?_⟩
  · simp only [setTextL, h, if_true]
  · simp only [setFontL, h, if_true]
  · simp only [setAutoSizeL, if_true]
  · rcases hf : l.font with _ | f0
    · simp [updateSizeL, hf, setSizeL]
    · rcases h with ht | hn
      · simp [updateSizeL, hf, ht, setSizeL]
      · rw [hf] at hn
        exact absurd hn (by simp)

/-- Witness for C8: on the concrete auto-sized label, SetText recomputes the
size, and the recomputation of an empty-text label collapses to (0,0). -/
theorem label_setters_size_witness :
    setTextL id "xy".toList c8Label0 =
      updateSizeL { c8Label0 with text := "xy".toList } ∧
    (updateSizeL { c8Label0 with text := ([] : List Char) }).width = 0 ∧
    (updateSizeL { c8Label0 with text := ([] : List Char) }).height = 0 := by
  refine ⟨(label_setters_size id c8Label0 "xy".toList face7x13M 0 .left true).1 rfl, ?_, ?_⟩
  · exact ((label_setters_size id { c8Label0 with text := ([] : List Char) }
      "xy".toList face7x13M 0 .left true).2.2.2.2.2.2.2.2 (Or.inl rfl)).1
  · exact ((label_setters_size id { c8Label0 with text := ([] : List Char) }
      "xy".toList face7x13M 0 .left true).2.2.2.2.2.2.2.2 (Or.inl rfl)).2

/-- Claim C4: with maxLength = n ≥ 1 and no validator, SetText stores the
normalized text truncated to at most the first n code points (by code point,
not byte), puts the cursor at the code-point length of the stored text,
clears the selection and fires onChange. -/
theorem setText_truncates_by_codepoint (nfc : List Char → List Char)
    (s : InputState) (t : List Char) (n : Int)
    (hm : s.maxLength = n) (hn : 1 ≤ n) (hv : s.validator = none) :
    getText (setTextI nfc t s) = (nfc t).take n.toNat ∧
    (setTextI nfc t s).cursorPos = (((nfc t).take n.toNat).length : Int) ∧
    (setTextI nfc t s).selectionStart = -1 ∧
    (setTextI nfc t s).selectionEnd = -1 ∧
    (setTextI nfc t s).changeLog = (nfc t).take n.toNat :: s.changeLog := by
  have htr : truncatedTo s.maxLength (nfc t) = (nfc t).take n.toNat := by
    rw [hm]
    unfold truncatedTo
    by_cases hlen : (((nfc t).length : Nat) : Int) > n
    · rw [if_pos ⟨by omega, hlen⟩]
    · rw [if_neg fun hc => hlen hc.2]
      have hle : (nfc t).length ≤ n.toNat := by omega
      exact (List.take_of_length_le hle).symm
  have hrej : validatorRejects s ((nfc t).take n.toNat) = false := by
    simp [validatorRejects, hv]
  simp [setTextI, hrej, htr, getText, clearSelection]

/-- Witness for C4: with maxLength = 5, SetText("héllo world") stores
exactly the 5 code points "héllo" (11 code points truncated to 5, not 5
bytes) with cursorPos = 5 and no selection. -/
theorem setText_truncates_by_codepoint_witness :
    getText (setTextI id "héllo world".toList (setMaxLengthI 5 initialInput)) =
      "héllo".toList ∧
    (setTextI id "héllo world".toList (setMaxLengthI 5 initialInput)).cursorPos = 5 ∧
    (setTextI id "héllo world".toList (setMaxLengthI 5 initialInput)).selectionStart = -1 ∧
    (setTextI id "héllo world".toList (setMaxLengthI 5 initialInput)).selectionEnd = -1 := by
  have h := setText_truncates_by_codepoint id (setMaxLengthI 5 initialInput)
    "héllo world".toList 5 rfl (by decide) rfl
  exact ⟨h.1.trans (by decide), h.2.1.trans (by decide), h.2.2.1, h.2.2.2.1⟩

/-- insertAtCursor abandons the insertion before validating when maxLength
is positive, the combined length exceeds it, and no room remains. -/
def insertBlocked (s : InputState) (l : List Char) : Bool :=
  decide (s.maxLength > 0) &&
    decide (((s.text.length + l.length : Nat) : Int) > s.maxLength) &&
    decide (s.maxLength - (s.text.length : Int) ≤ 0)

theorem hasSelection_deleteSelection (s : InputState)
    (h : hasSelection s = true) : hasSelection (deleteSelection s) = false := by
  unfold deleteSelection
  rw [if_pos h]
  simp [hasSelection, clearSelection]

theorem insertAtCursor_eq (s : InputState) (l : List Char) :
    insertAtCursor s l =
      if insertBlocked s l then s
      else if validatorRejects s (prospectiveText s l) then s
      else
        { s with
          text := prospectiveText s l,
          cursorPos := s.cursorPos + ((insertedRunes s l).length : Int),
          changeLog := prospectiveText s l :: s.changeLog } := by
  unfold insertAtCursor
  by_cases hc : s.maxLength > 0 ∧
      (((s.text.length + l.length : Nat)) : Int) > s.maxLength
  · rw [if_pos hc]
    have hins : insertedRunes s l =
        l.take (s.maxLength - (s.text.length : Int)).toNat := by
      unfold insertedRunes
      rw [if_pos hc]
    by_cases hroom : s.maxLength - (s.text.length : Int) ≤ 0
    · have hb : insertBlocked s l = true := by
        simp only [insertBlocked, Bool.and_eq_true, decide_eq_true_eq]
        exact ⟨⟨hc.1, hc.2⟩, hroom⟩
      rw [if_pos hroom, if_pos (by rw [hb])]
    · have hb : insertBlocked s l = false := by
        rw [Bool.eq_false_iff]
        intro hbt
        simp only [insertBlocked, Bool.and_eq_true, decide_eq_true_eq] at hbt
        exact hroom hbt.2
      rw [if_neg hroom, hb, if_neg Bool.false_ne_true]
      unfold prospectiveText
      rw [hins]
  · rw [if_neg hc]
    have hins : insertedRunes s l = l := by
      unfold insertedRunes
      rw [if_neg hc]
    have hb : insertBlocked s l = false := by
      rw [Bool.eq_false_iff]
      intro hbt
      simp only [insertBlocked, Bool.and_eq_true, decide_eq_true_eq] at hbt
      exact hc ⟨hbt.1.1, hbt.1.2⟩
    rw [hb, if_neg Bool.false_ne_true]
    unfold prospectiveText
    rw [hins]

/-- Claim C3 (amended): with a validator set and no pending selection, a
validator rejection of the prospective full text (and likewise the no-room
early return) abandons the insertion with text, cursor and selection
sentinels untouched, while acceptance stores the prospective text, advances
the cursor by exactly the number of inserted code points and fires onChange.
When a selection exists at call time it is deleted first and insertion
proceeds on the selection-free state, so the deletion persists even if the
validator then rejects (the original claim's unchanged-state guarantee fails
there — see the counterexample). -/
theorem insertText_validator_behaviour (nfc : List Char → List Char)
    (s : InputState) (t : List Char) (v : List Char → Bool) :
    (hasSelection s = false → s.validator = some v →
      v (prospectiveText s (nfc t)) = false → insertText nfc t s = s) ∧
    (hasSelection s = false → s.validator = some v →
      v (prospectiveText s (nfc t)) = true → insertBlocked s (nfc t) = false →
      insertText nfc t s =
        { s with
          text := prospectiveText s (nfc t),
          cursorPos := s.cursorPos + ((insertedRunes s (nfc t)).length : Int),
          changeLog := prospectiveText s (nfc t) :: s.changeLog }) ∧
    (hasSelection s = true →
      insertText nfc t s = insertAtCursor (deleteSelection s) (nfc t)) := by
  refine ⟨fun hsel hval hrej => ?_, fun hsel hval hacc hnb => ?_, fun hsel => ?_⟩
  · unfold insertText
    rw [if_neg (by simp [hsel]), insertAtCursor_eq]
    have hvr : validatorRejects s (prospectiveText s (nfc t)) = true := by
      simp [validatorRejects, hval, hrej]
    simp [hvr]
  · unfold insertText
    rw [if_neg (by simp [hsel]), insertAtCursor_eq]
    have hvr : validatorRejects s (prospectiveText s (nfc t)) = false := by
      simp [validatorRejects, hval, hacc]
    rw [hnb, if_neg Bool.false_ne_true, hvr, if_neg Bool.false_ne_true]
  · unfold insertText
    rw [if_pos hsel]

/-- The claim C3 counterexample state: text "ab", a selection over the first
code point, cursor at the end, a validator that rejects every candidate. -/
def c3State : InputState :=
  { initialInput with
    text := ['a', 'b'], cursorPos := 2, selectionStart := 0,
    selectionEnd := 1, validator := some fun _ => false }

/-- Counterexample to claim C3 as stated: with a selection present and a
validator rejecting every candidate, insertText("x") is rejected, yet the
prior state is not unchanged — the selected code point is gone, the cursor
moved and the selection sentinels were reset. -/
theorem insertText_selection_state_changed :
    (insertText id ['x'] c3State).text = ['b'] ∧ c3State.text = ['a', 'b'] ∧
    (insertText id ['x'] c3State).cursorPos = 0 ∧ c3State.cursorPos = 2 ∧
    (insertText id ['x'] c3State).selectionStart = -1 ∧
    c3State.selectionStart = 0 := by
  exact ⟨rfl, rfl, rfl, rfl, rfl, rfl⟩

/-- The C3 witness state: no selection, a length-limiting validator. -/
def c3WitState : InputState :=
  { initialInput with
    text := ['a', 'b'], cursorPos := 2,
    validator := some fun l => decide (l.length ≤ 2) }

/-- Witness for C3: inserting "x" into "ab" under a validator accepting at
most 2 code points is rejected and leaves the state untouched. -/
theorem insertText_validator_behaviour_witness :
    insertText id ['x'] c3WitState = c3WitState :=
  (insertText_validator_behaviour id c3WitState ['x']
    (fun l => decide (l.length ≤ 2))).1 rfl rfl rfl

/-- The reachable-state invariant for Input: the selection sentinels stay at
-1 and the cursor stays inside [0, code-point length of the text]. -/
def InputInv (s : InputState) : Prop :=
  s.selectionStart = -1 ∧ s.selectionEnd = -1 ∧
    0 ≤ s.cursorPos ∧ s.cursorPos ≤ ((s.text.length : Nat) : Int)

theorem hasSelection_eq_false (s : InputState) (h : s.selectionStart = -1) :
    hasSelection s = false := by
  simp [hasSelection, h]

theorem clickCursorLoop_bounds (adv : Char → Option Nat) (relativeX : Int) :
    ∀ (rest : List Char) (pos w : Nat) (cur : Int),
      0 ≤ cur → cur ≤ (pos : Int) + rest.length →
      0 ≤ clickCursorLoop adv relativeX rest pos w cur ∧
        clickCursorLoop adv relativeX rest pos w cur ≤ (pos : Int) + rest.length := by
  intro rest
  induction rest with
  | nil =>
    intro pos w cur h0 h1
    exact ⟨h0, by simpa using h1⟩
  | cons r rest ih =>
    intro pos w cur h0 h1
    unfold clickCursorLoop
    by_cases hbr : ((w + getCharWidth adv r / 2 : Nat) : Int) > relativeX
    · rw [if_pos hbr]
      constructor
      · positivity
      · simp only [List.length_cons]
        push_cast
        omega
    · rw [if_neg hbr]
      have := ih (pos + 1) (w + getCharWidth adv r) ((pos : Int) + 1)
        (by positivity) (by push_cast; omega)
      simp only [List.length_cons]
      push_cast at this ⊢
      omega

theorem stepOp_preserves_inv (nfc : List Char → List Char)
    (adv : Char → Option Nat) (s : InputState) (op : InOp)
    (h : InputInv s) : InputInv (stepOp nfc adv s op) := by
  obtain ⟨hs1, hs2, hc0, hcl⟩ := h
  have hnosel : hasSelection s = false := hasSelection_eq_false s hs1
  cases op with
  | setText t =>
    show InputInv (setTextI nfc t s)
    unfold setTextI
    dsimp only
    split
    · exact ⟨hs1, hs2, hc0, hcl⟩
    · refine ⟨rfl, rfl, ?_, ?_⟩ <;> simp [clearSelection]
  | setMaxLength n =>
    show InputInv (setMaxLengthI n s)
    unfold setMaxLengthI
    dsimp only
    split
    · refine ⟨hs1, hs2, ?_, ?_⟩
      · dsimp only
        split <;> omega
      · dsimp only
        simp only [List.length_take]
        split <;> omega
    · exact ⟨hs1, hs2, hc0, hcl⟩
  | setValidator v => exact ⟨hs1, hs2, hc0, hcl⟩
  | setPosition nx ny => exact ⟨hs1, hs2, hc0, hcl⟩
  | setSize nw nh => exact ⟨hs1, hs2, hc0, hcl⟩
  | focusOp => exact ⟨hs1, hs2, hc0, hcl⟩
  | blurOp => exact ⟨rfl, rfl, hc0, hcl⟩
  | clickEv px py =>
    show InputInv (handleClickI adv px py s).1
    unfold handleClickI
    split
    · dsimp only
      split
      · exact ⟨rfl, rfl, hc0, hcl⟩
      · exact ⟨hs1, hs2, hc0, hcl⟩
    · set s1 := if !s.focused then focusI s else s with hs1def
      have hfields : s1.text = s.text ∧ s1.cursorPos = s.cursorPos := by
        rw [hs1def]
        split <;> exact ⟨rfl, rfl⟩
      dsimp only
      split
      · exact ⟨rfl, rfl, le_refl 0, by simp [clearSelection, hfields.1]⟩
      · have hb := clickCursorLoop_bounds adv (px - s1.x - 5) s1.text 0 0
          s1.cursorPos (hfields.2 ▸ hc0) (by simp [hfields.1, hfields.2]; omega)
        refine ⟨rfl, rfl, ?_, ?_⟩
        · simpa [clearSelection] using hb.1
        · simpa [clearSelection, hfields.1] using hb.2
  | keyEv k =>
    show InputInv (handleKeyPressI k s).1
    unfold handleKeyPressI
    split
    · exact ⟨hs1, hs2, hc0, hcl⟩
    · cases k with
      | backspace =>
        rw [hnosel]
        simp only [Bool.false_eq_true, if_false]
        split
        · refine ⟨hs1, hs2, ?_, ?_⟩ <;>
            · simp only [List.length_append, List.length_take, List.length_drop]
              omega
        · exact ⟨hs1, hs2, hc0, hcl⟩
      | del =>
        rw [hnosel]
        simp only [Bool.false_eq_true, if_false]
        split
        · refine ⟨hs1, hs2, ?_, ?_⟩ <;>
            · simp only [List.length_append, List.length_take, List.length_drop]
              omega
        · exact ⟨hs1, hs2, hc0, hcl⟩
      | arrowLeft =>
        refine ⟨rfl, rfl, ?_, ?_⟩ <;>
          · dsimp only [clearSelection]
            split <;> first
              | omega
              | (dsimp only; omega)
      | arrowRight =>
        refine ⟨rfl, rfl, ?_, ?_⟩ <;>
          · dsimp only [clearSelection]
            split <;> first
              | omega
              | (dsimp only; omega)
      | enter => exact ⟨hs1, hs2, hc0, hcl⟩
      | other c => exact ⟨hs1, hs2, hc0, hcl⟩
  | textEv t =>
    show InputInv (handleTextInputI nfc t s).1
    unfold handleTextInputI
    split
    · exact ⟨hs1, hs2, hc0, hcl⟩
    · dsimp only
      split
      · exact ⟨hs1, hs2, hc0, hcl⟩
      · unfold insertText
        rw [hnosel]
        simp only [Bool.false_eq_true, if_false]
        rw [insertAtCursor_eq]
        split
        · exact ⟨hs1, hs2, hc0, hcl⟩
        · split
          · exact ⟨hs1, hs2, hc0, hcl⟩
          · refine ⟨hs1, hs2, ?_, ?_⟩ <;>
              · simp only [prospectiveText, List.length_append, List.length_take,
                  List.length_drop]
                omega

theorem inv_runOps (nfc : List Char → List Char) (adv : Char → Option Nat)
    (ops : List InOp) : InputInv (runOps nfc adv ops) := by
  have hgen : ∀ (l : List InOp) (s : InputState), InputInv s →
      InputInv (l.foldl (stepOp nfc adv) s) := by
    intro l
    induction l with
    | nil => exact fun s hs => hs
    | cons op l ih =>
      intro s hs
      rw [List.foldl_cons]
      exact ih _ (stepOp_preserves_inv nfc adv s op hs)
  exact hgen ops initialInput ⟨rfl, rfl, le_refl 0, by simp [initialInput]⟩

/-- Claim C5: after every sequence of operations through the Input's public
interface (SetText, SetMaxLength, the other setters, Focus/Blur, and the
registered Click/KeyPress/TextInput/Focus/Blur handlers), the invariant
0 ≤ cursorPos ≤ codepointLength(text) holds. -/
theorem input_cursor_invariant (nfc : List Char → List Char)
    (adv : Char → Option Nat) (ops : List InOp) :
    0 ≤ (runOps nfc adv ops).cursorPos ∧
      (runOps nfc adv ops).cursorPos ≤
        (((runOps nfc adv ops).text.length : Nat) : Int) :=
  ⟨(inv_runOps nfc adv ops).2.2.1, (inv_runOps nfc adv ops).2.2.2⟩

/-- Claim C10: in every Input state reachable through the public interface,
selectionStart and selectionEnd both equal -1, so hasSelection is false in
every reachable state and the selection-deletion branches are never taken. -/
theorem input_no_selection_reachable (nfc : List Char → List Char)
    (adv : Char → Option Nat) (ops : List InOp) :
    (runOps nfc adv ops).selectionStart = -1 ∧
    (runOps nfc adv ops).selectionEnd = -1 ∧
    hasSelection (runOps nfc adv ops) = false :=
  ⟨(inv_runOps nfc adv ops).1, (inv_runOps nfc adv ops).2.1,
    hasSelection_eq_false _ (inv_runOps nfc adv ops).1⟩

end GuiSpec
